import Mathlib

/-!
# Verification of the serde-java-properties core

A shallow embedding of the crate's core, translated from the Rust sources:

* `src/de/field.rs`  — the field-level decoder (`FieldDeserializer`), its
  unhinted inference cascade (`deserialize_any`), the hinted parsers
  (`deserialize_u8` .. `deserialize_string`, `deserialize_option`), and the
  enum variant access (`UnitDeserializer`);
* `src/ser/mod.rs`   — the top-level `Serializer` dispatch (maps, structs,
  struct variants accepted; scalars, sequences and tuples rejected with
  `NotAMap`) and the per-field record emission;
* `src/de/mod.rs`    — the structural walk over (key, value) records.

Machine integers are modelled as `Nat` / `Int` with explicit bounds; Rust's
`FromStr` for integers is reproduced digit by digit (sign handling, overflow
check).  Rust's `FromStr` for `f32`/`f64` succeeds exactly when the input
matches the decimal float grammar (the numeric value saturates and is never a
range error), so float parsing is modelled at that level: the grammar check is
exact, and a float value is represented by its shortest round-trippable
decimal rendering — the text the Field Encoder emits, and the text whose
successful parse returns that very value.

The file works at the Raw Record level, `List (String × String)`: line
tokenizing, escaping and character encodings belong to the external
`java-properties` collaborator and are out of scope for the core.
-/

/-! ## Decimal digit strings

Rust's `u128::from_str` / `i128::from_str` accept an optional single sign
followed by one or more ASCII digits, rejecting the empty string, any other
character, and any value outside the target range. -/

/-- The numeric value of a list of ASCII digit characters, most significant
first (the accumulator fold used by Rust's `from_str_radix`). -/
def digitsToNat (cs : List Char) : Nat :=
  cs.foldl (fun a c => a * 10 + (c.toNat - 48)) 0

/-- Parse a bare run of ASCII digits: at least one digit and nothing else.
Mirrors the digit loop of Rust's `from_str_radix` at radix 10 (any non-digit
is `InvalidDigit`, an empty run is `Empty`). -/
def parseDigits (cs : List Char) : Option Nat :=
  if cs ≠ [] ∧ cs.all Char.isDigit then some (digitsToNat cs) else none

/-- Rust's `from_str` for an unsigned integer type with maximum `max`:
an optional leading `+`, then digits; a `-` or any other stray character is
rejected by the digit loop; values above `max` overflow to an error.
(`u8::from_str` is `rustParseUnsigned 255`, and so on.) -/
def rustParseUnsignedChars (max : Nat) : List Char → Option Nat
  | [] => none
  | c :: rest =>
    (parseDigits (if c = '+' then rest else c :: rest)).bind fun n =>
      if n ≤ max then some n else none

/-- Rust's `from_str` for an unsigned integer type, on a `String`. -/
def rustParseUnsigned (max : Nat) (s : String) : Option Nat :=
  rustParseUnsignedChars max s.data

/-- Rust's `from_str` for a signed integer type with range `[min, max]`:
an optional leading `+` or `-`, then digits, with the range check of the
checked accumulation loop. -/
def rustParseSignedChars (min max : Int) : List Char → Option Int
  | [] => none
  | c :: rest =>
    if c = '-' then
      (parseDigits rest).bind fun n =>
        if min ≤ -(n : Int) then some (-(n : Int)) else none
    else
      (parseDigits (if c = '+' then rest else c :: rest)).bind fun n =>
        if (n : Int) ≤ max then some (n : Int) else none

/-- Rust's `from_str` for a signed integer type, on a `String`. -/
def rustParseSigned (min max : Int) (s : String) : Option Int :=
  rustParseSignedChars min max s.data

/-- The call `"...".parse::<u128>()` of `deserialize_any` (src/de/field.rs line 76). -/
def rustParseU128 (s : String) : Option Nat :=
  rustParseUnsigned (2 ^ 128 - 1) s

/-- The call `"...".parse::<i128>()` of `deserialize_any` (src/de/field.rs line 85). -/
def rustParseI128 (s : String) : Option Int :=
  rustParseSigned (-(2 ^ 127)) (2 ^ 127 - 1) s

/-- Rust's `bool::from_str`: exactly `"true"` or `"false"`
(used by `deserialize_bool` via `self.0.parse()`). -/
def rustParseBool (s : String) : Option Bool :=
  if s = "true" then some true
  else if s = "false" then some false
  else none

/-! ## The Rust float grammar

`f32::from_str` / `f64::from_str` succeed exactly on this grammar (core's
`dec2flt`): optional sign, then either a case-insensitive special
(`inf`, `infinity`, `nan`) or a decimal number — digits with an optional
point and optional fractional digits (at least one digit overall), followed
by an optional exponent `e`/`E`, optional sign, one or more digits.  Both
widths share the grammar, so success of the two parses coincides. -/

/-- Strip one leading `+` or `-`, if present. -/
def stripSign (cs : List Char) : List Char :=
  match cs with
  | c :: rest => if c = '+' ∨ c = '-' then rest else cs
  | [] => []

/-- The exponent tail after `e`/`E`: optional sign, one or more digits. -/
def expTail (cs : List Char) : Bool :=
  let cs' := stripSign cs
  !cs'.isEmpty && cs'.all Char.isDigit

/-- The number production: digits, optional point, optional fraction digits
(at least one digit before or after the point), optional exponent. -/
def numberGrammar (cs : List Char) : Bool :=
  let intPart := cs.takeWhile Char.isDigit
  let rest := cs.dropWhile Char.isDigit
  match rest with
  | [] => !intPart.isEmpty
  | '.' :: rest2 =>
    let fracPart := rest2.takeWhile Char.isDigit
    let rest3 := rest2.dropWhile Char.isDigit
    if intPart.isEmpty && fracPart.isEmpty then false
    else
      match rest3 with
      | [] => true
      | e :: rest4 => (e = 'e' ∨ e = 'E') && expTail rest4
  | e :: rest2 => (e = 'e' ∨ e = 'E') && !intPart.isEmpty && expTail rest2

/-- Whether `s.parse::<f32>()` (equivalently `::<f64>()`) succeeds. -/
def floatGrammar (s : String) : Bool :=
  let cs := stripSign s.data
  let low := cs.map Char.toLower
  if low = "inf".data ∨ low = "infinity".data ∨ low = "nan".data then true
  else numberGrammar cs

/-! ## The unhinted inference cascade

`FieldDeserializer::deserialize_any` (src/de/field.rs lines 72-106):
the result is one of the visitor calls, modelled as a tagged scalar.  Float
scalars carry the raw text (see the header note). -/

/-- The scalar produced by one `visit_*` call of the inference cascade. -/
inductive Inferred where
  | u8 (n : Nat)
  | u16 (n : Nat)
  | u32 (n : Nat)
  | u64 (n : Nat)
  | u128 (n : Nat)
  | i8 (v : Int)
  | i16 (v : Int)
  | i32 (v : Int)
  | i64 (v : Int)
  | i128 (v : Int)
  | boolV (b : Bool)
  | f32V (s : String)
  | f64V (s : String)
  | strV (s : String)
deriving DecidableEq

/-- Whether the cascade produced an unsigned integer scalar. -/
def Inferred.isUnsignedScalar : Inferred → Bool
  | .u8 _ | .u16 _ | .u32 _ | .u64 _ | .u128 _ => true
  | _ => false

/-- Whether the cascade produced a signed integer scalar. -/
def Inferred.isSignedScalar : Inferred → Bool
  | .i8 _ | .i16 _ | .i32 _ | .i64 _ | .i128 _ => true
  | _ => false

/-- Whether the cascade produced an integer scalar of either family. -/
def Inferred.isIntScalar (v : Inferred) : Bool :=
  v.isUnsignedScalar || v.isSignedScalar

/-- Whether the cascade produced a float scalar. -/
def Inferred.isFloatScalar : Inferred → Bool
  | .f32V _ | .f64V _ => true
  | _ => false

/-- The cascade `FieldDeserializer::deserialize_any` (src/de/field.rs lines
72-106), branch for branch: the `u128` parse with the `0..=0xFF` /
`0x100..=0xFFFF` / ... match, then the `i128` parse with the negative
ranges, then the exact `"true"` / `"false"` comparisons, then the `f32` and
`f64` parses, then `visit_string` on the raw text. -/
def deserializeAny (s : String) : Inferred :=
  match rustParseU128 s with
  | some v =>
    if v ≤ 0xFF then .u8 v
    else if v ≤ 0xFFFF then .u16 v
    else if v ≤ 0xFFFFFFFF then .u32 v
    else if v ≤ 0xFFFFFFFFFFFFFFFF then .u64 v
    else .u128 v
  | none =>
    match rustParseI128 s with
    | some v =>
      if -0x80 ≤ v ∧ v ≤ -0x1 then .i8 v
      else if -0x8000 ≤ v ∧ v ≤ -0x81 then .i16 v
      else if -0x80000000 ≤ v ∧ v ≤ -0x8001 then .i32 v
      else if -0x8000000000000000 ≤ v ∧ v ≤ -0x80000001 then .i64 v
      else .i128 v
    | none =>
      if s = "true" then .boolV true
      else if s = "false" then .boolV false
      else if floatGrammar s then .f32V s
      else if floatGrammar s then .f64V s
      else .strV s

/-- The narrowest-signed-width rule as the specification words it: the
narrowest of the signed widths 8/16/32/64/128 whose range contains the
value.  Stated for comparison with `deserializeAny`. -/
def specNarrowestSigned (v : Int) : Inferred :=
  if -0x80 ≤ v ∧ v ≤ 0x7F then .i8 v
  else if -0x8000 ≤ v ∧ v ≤ 0x7FFF then .i16 v
  else if -0x80000000 ≤ v ∧ v ≤ 0x7FFFFFFF then .i32 v
  else if -0x8000000000000000 ≤ v ∧ v ≤ 0x7FFFFFFFFFFFFFFF then .i64 v
  else .i128 v

set_option maxRecDepth 8192

/-! ## Decimal rendering

Rust's `Display` for the integer types prints the standard minimal decimal
form, the behaviour the spec names for the Field Encoder.  Rendering is
defined with an explicit fuel so that every equation is structural and
kernel-evaluable. -/

/-- The decimal digits of `n`, most significant first; `fuel` bounds the
recursion and any `fuel > n` is enough. -/
def natChars (fuel n : Nat) : List Char :=
  match fuel with
  | 0 => []
  | fuel + 1 =>
    if n < 10 then [Nat.digitChar n]
    else natChars fuel (n / 10) ++ [Nat.digitChar (n % 10)]

/-- The decimal form of a natural number, as Rust's `Display` prints it. -/
def renderNat (n : Nat) : String :=
  String.mk (natChars (n + 1) n)

/-- The decimal form of an integer, as Rust's `Display` prints it: a minus
sign exactly for negative values. -/
def renderInt (v : Int) : String :=
  if v < 0 then String.mk ('-' :: natChars (v.natAbs + 1) v.natAbs)
  else renderNat v.toNat

theorem natChars_fuel (f g n : Nat) (hf : n < f) (hg : n < g) :
    natChars f n = natChars g n := by
  induction f generalizing g n with
  | zero => omega
  | succ f ih =>
    cases g with
    | zero => omega
    | succ g =>
      simp only [natChars]
      split
      · rfl
      · exact congrArg (· ++ [Nat.digitChar (n % 10)])
          (ih g (n / 10) (by omega) (by omega))

theorem digitChar_isDigit {n : Nat} (h : n < 10) :
    (Nat.digitChar n).isDigit = true := by
  have h10 : ∀ m : Nat, m < 10 → (Nat.digitChar m).isDigit = true := by decide
  exact h10 n h

theorem digitChar_toNat {n : Nat} (h : n < 10) :
    (Nat.digitChar n).toNat - 48 = n := by
  have h10 : ∀ m : Nat, m < 10 → (Nat.digitChar m).toNat - 48 = m := by decide
  exact h10 n h

theorem natChars_ne_nil (f n : Nat) (h : n < f) : natChars f n ≠ [] := by
  cases f with
  | zero => omega
  | succ f =>
    simp only [natChars]
    split
    · simp
    · simp

theorem natChars_all_digits (f n : Nat) (h : n < f) :
    (natChars f n).all Char.isDigit = true := by
  induction f generalizing n with
  | zero => omega
  | succ f ih =>
    simp only [natChars]
    split
    · simpa using digitChar_isDigit (by omega)
    · rw [List.all_append, Bool.and_eq_true]
      refine And.intro (ih (n / 10) (by omega)) ?_
      simpa using digitChar_isDigit (Nat.mod_lt n (by omega))

theorem digitsToNat_append_digit (cs : List Char) (c : Char) :
    digitsToNat (cs ++ [c]) = digitsToNat cs * 10 + (c.toNat - 48) := by
  simp [digitsToNat, List.foldl_append]

theorem digitsToNat_natChars (f n : Nat) (h : n < f) :
    digitsToNat (natChars f n) = n := by
  induction f generalizing n with
  | zero => omega
  | succ f ih =>
    simp only [natChars]
    split
    · simp only [digitsToNat, List.foldl]
      rw [Nat.zero_mul, Nat.zero_add]
      exact digitChar_toNat (by omega)
    · rw [digitsToNat_append_digit, ih (n / 10) (by omega),
        digitChar_toNat (Nat.mod_lt n (by omega))]
      omega

theorem parseDigits_natChars (n : Nat) :
    parseDigits (natChars (n + 1) n) = some n := by
  rw [parseDigits, if_pos]
  · rw [digitsToNat_natChars (n + 1) n (by omega)]
  · exact And.intro (natChars_ne_nil (n + 1) n (by omega))
      (natChars_all_digits (n + 1) n (by omega))

/-- The first character of a rendered natural number is a digit, hence not a
sign: the sign-stripping branches of the Rust integer parsers do not fire on
rendered output. -/
theorem natChars_head_digit (f n : Nat) (h : n < f) :
    ∀ c cs, natChars f n = c :: cs → c.isDigit = true := by
  intro c cs hc
  have hall := natChars_all_digits f n h
  rw [hc, List.all_cons, Bool.and_eq_true] at hall
  exact hall.1

theorem renderNat_data (n : Nat) : (renderNat n).data = natChars (n + 1) n := rfl

/-- Parsing back a rendered natural number: the unsigned Rust parser returns
the value whenever it is within the target range. -/
theorem rustParseUnsigned_renderNat (max n : Nat) (h : n ≤ max) :
    rustParseUnsigned max (renderNat n) = some n := by
  have hne := natChars_ne_nil (n + 1) n (by omega)
  rcases hcs : natChars (n + 1) n with _ | ⟨c, cs'⟩
  · exact absurd hcs hne
  · have hd : c.isDigit = true := natChars_head_digit (n + 1) n (by omega) c cs' hcs
    have hcp : c ≠ '+' := by
      intro e; rw [e] at hd; exact absurd hd (by decide)
    have hparse : parseDigits (c :: cs') = some n := by
      rw [← hcs]; exact parseDigits_natChars n
    rw [rustParseUnsigned, renderNat_data, hcs]
    simp [rustParseUnsignedChars, hcp, hparse, h]

/-- Parsing back a rendered integer: the signed Rust parser returns the
value whenever it is within the target range. -/
theorem rustParseSigned_renderInt (min max v : Int) (hmin : min ≤ v)
    (hmax : v ≤ max) : rustParseSigned min max (renderInt v) = some v := by
  by_cases hneg : v < 0
  · have habs : -(v.natAbs : Int) = v := by omega
    have hdata : (renderInt v).data = '-' :: natChars (v.natAbs + 1) v.natAbs := by
      rw [renderInt, if_pos hneg]
    rw [rustParseSigned, hdata]
    simp only [rustParseSignedChars, parseDigits_natChars, Option.some_bind,
      habs, if_pos hmin]
    exact if_pos trivial
  · have hvt : ((v.toNat : Nat) : Int) = v := Int.toNat_of_nonneg (not_lt.mp hneg)
    have hdata : (renderInt v).data = natChars (v.toNat + 1) v.toNat := by
      rw [renderInt, if_neg hneg]; rfl
    have hne := natChars_ne_nil (v.toNat + 1) v.toNat (by omega)
    rcases hcs : natChars (v.toNat + 1) v.toNat with _ | ⟨c, cs'⟩
    · exact absurd hcs hne
    · have hd : c.isDigit = true :=
        natChars_head_digit (v.toNat + 1) v.toNat (by omega) c cs' hcs
      have hcm : c ≠ '-' := by intro e; rw [e] at hd; exact absurd hd (by decide)
      have hcp : c ≠ '+' := by intro e; rw [e] at hd; exact absurd hd (by decide)
      have hparse : parseDigits (c :: cs') = some v.toNat := by
        rw [← hcs]; exact parseDigits_natChars v.toNat
      rw [rustParseSigned, hdata, hcs]
      simp [rustParseSignedChars, hcm, hcp, hparse, hvt, hmax]

/-- A string the unsigned 128-bit parse rejects can only carry a
non-positive signed value: a non-negative signed parse (optional `+`, then
digits, value at most `2^127 - 1 < 2^128`) would also have succeeded as
unsigned. -/
theorem signedValue_nonpos_of_unsigned_fail (s : String) (v : Int)
    (hU : rustParseU128 s = none) (hI : rustParseI128 s = some v) : v ≤ 0 := by
  rw [rustParseI128, rustParseSigned] at hI
  rw [rustParseU128, rustParseUnsigned] at hU
  rcases hds : s.data with _ | ⟨c, rest⟩
  · rw [hds, rustParseSignedChars] at hI
    exact absurd hI (by simp)
  · rw [hds, rustParseSignedChars] at hI
    rw [hds, rustParseUnsignedChars] at hU
    by_cases hcm : c = '-'
    · rw [if_pos hcm] at hI
      rcases hp : parseDigits rest with _ | n
      · rw [hp] at hI; exact absurd hI (by simp)
      · rw [hp, Option.some_bind] at hI
        by_cases hr : -(2 ^ 127 : Int) ≤ -(n : Int)
        · rw [if_pos hr] at hI
          cases hI
          omega
        · rw [if_neg hr] at hI; exact absurd hI (by simp)
    · rw [if_neg hcm] at hI
      rcases hp : parseDigits (if c = '+' then rest else c :: rest) with _ | n
      · rw [hp] at hI; exact absurd hI (by simp)
      · rw [hp, Option.some_bind] at hI hU
        by_cases hr : (n : Int) ≤ 2 ^ 127 - 1
        · rw [if_pos hr] at hI
          have hn : n ≤ 2 ^ 128 - 1 := by
            have := hr
            omega
          rw [if_pos hn] at hU
          exact absurd hU (by simp)
        · rw [if_neg hr] at hI; exact absurd hI (by simp)

/-- C1: a string that parses as an unsigned 128-bit decimal integer is
inferred at the narrowest unsigned width whose maximum is at least the
value, with the boundaries 255, 65535, 2^32-1, 2^64-1, and the 128-bit
scalar beyond. -/
theorem unhinted_unsigned_narrowest_C1 (s : String) (v : Nat)
    (h : rustParseU128 s = some v) :
    deserializeAny s =
      (if v ≤ 255 then .u8 v
       else if v ≤ 65535 then .u16 v
       else if v ≤ 2 ^ 32 - 1 then .u32 v
       else if v ≤ 2 ^ 64 - 1 then .u64 v
       else .u128 v) := by
  rw [deserializeAny, h]
  norm_num

/-- Witness for C1 at the concrete input `"70000"`. -/
theorem unhinted_unsigned_narrowest_C1_witness :
    rustParseU128 "70000" = some 70000 ∧
      deserializeAny "70000" = Inferred.u32 70000 := by
  refine And.intro (by decide) ?_
  rw [unhinted_unsigned_narrowest_C1 "70000" 70000 (by decide)]
  norm_num

/-- Counterexample to C2 as stated: `"-0"` fails the unsigned parse and
parses as signed with value 0, yet the cascade returns the 128-bit signed
scalar, not the narrowest signed width containing 0 (which would be 8-bit). -/
theorem unhinted_signed_narrowest_C2_cex :
    rustParseU128 "-0" = none ∧ rustParseI128 "-0" = some 0 ∧
      deserializeAny "-0" = Inferred.i128 0 ∧
      specNarrowestSigned 0 = Inferred.i8 0 ∧
      deserializeAny "-0" ≠ specNarrowestSigned 0 := by decide

/-- C2 as amended: a string that fails the unsigned parse but parses as a
signed 128-bit decimal has value `v ≤ 0`; for `v < 0` the cascade returns
the narrowest signed width whose range contains `v`, while for `v = 0`
(such a string carries a minus sign, e.g. `"-0"`) it returns the 128-bit
signed scalar. -/
theorem unhinted_signed_narrowest_C2 (s : String) (v : Int)
    (hU : rustParseU128 s = none) (hI : rustParseI128 s = some v) :
    v ≤ 0 ∧
      (v < 0 → deserializeAny s = specNarrowestSigned v) ∧
      (v = 0 → deserializeAny s = Inferred.i128 0) := by
  have hv0 := signedValue_nonpos_of_unsigned_fail s v hU hI
  refine ⟨hv0, ?_, ?_⟩
  · intro hneg
    simp only [deserializeAny, hU, hI, specNarrowestSigned]
    split_ifs <;> first | rfl | (exfalso; omega)
  · intro h0
    subst h0
    simp only [deserializeAny, hU, hI]
    norm_num

/-- Witness for the amended C2 at the concrete input `"-5"`. -/
theorem unhinted_signed_narrowest_C2_witness :
    rustParseU128 "-5" = none ∧ rustParseI128 "-5" = some (-5) ∧
      deserializeAny "-5" = specNarrowestSigned (-5) := by
  refine ⟨by decide, by decide, ?_⟩
  exact (unhinted_signed_narrowest_C2 "-5" (-5) (by decide) (by decide)).2.1
    (by norm_num)

/-- C3: the cascade's fixed order — any string parsing as an integer
(unsigned or signed) yields an integer scalar, never a float; with both
integer parses failed, `"true"`/`"false"` yield booleans; with those
exhausted, a string matching the float grammar yields a float scalar (the
32-bit parse is attempted before the 64-bit one); and a string matching
nothing is returned verbatim as a string scalar. -/
theorem cascade_order_C3 (s : String) :
    (((rustParseU128 s).isSome ∨ (rustParseI128 s).isSome) →
        (deserializeAny s).isIntScalar = true) ∧
      (rustParseU128 s = none → rustParseI128 s = none → s = "true" →
        deserializeAny s = Inferred.boolV true) ∧
      (rustParseU128 s = none → rustParseI128 s = none → s = "false" →
        deserializeAny s = Inferred.boolV false) ∧
      (rustParseU128 s = none → rustParseI128 s = none → s ≠ "true" →
        s ≠ "false" → floatGrammar s = true →
        deserializeAny s = Inferred.f32V s) ∧
      (rustParseU128 s = none → rustParseI128 s = none → s ≠ "true" →
        s ≠ "false" → floatGrammar s = false →
        deserializeAny s = Inferred.strV s) := by
  refine ⟨?_, ?_, ?_, ?_, ?_⟩
  · intro h
    rcases hu : rustParseU128 s with _ | v
    · rcases hi : rustParseI128 s with _ | v
      · rw [hu, hi] at h
        simp at h
      · simp only [deserializeAny, hu, hi]
        split_ifs <;> rfl
    · simp only [deserializeAny, hu]
      split_ifs <;> rfl
  · intro hu hi ht
    simp only [deserializeAny, hu, hi, if_pos ht]
  · intro hu hi hf
    have hne : s ≠ "true" := by rw [hf]; decide
    simp only [deserializeAny, hu, hi, if_neg hne, if_pos hf]
  · intro hu hi ht hf hg
    simp only [deserializeAny, hu, hi, if_neg ht, if_neg hf, if_pos hg]
  · intro hu hi ht hf hg
    simp only [deserializeAny, hu, hi, if_neg ht, if_neg hf, hg,
      Bool.false_eq_true, if_false]

/-- Witness for C3: applications of the conjuncts at `"512"` (an integer,
never a float), `"true"`, `"1.5"` (a float) and `"hello"` (returned
verbatim). -/
theorem cascade_order_C3_witness :
    (deserializeAny "512").isIntScalar = true ∧
      deserializeAny "true" = Inferred.boolV true ∧
      deserializeAny "1.5" = Inferred.f32V "1.5" ∧
      deserializeAny "hello" = Inferred.strV "hello" := by
  refine ⟨?_, ?_, ?_, ?_⟩
  · exact (cascade_order_C3 "512").1 (Or.inl (by decide))
  · exact (cascade_order_C3 "true").2.1 (by decide) (by decide) rfl
  · exact (cascade_order_C3 "1.5").2.2.2.1 (by decide) (by decide) (by decide)
      (by decide) (by decide)
  · exact (cascade_order_C3 "hello").2.2.2.2 (by decide) (by decide)
      (by decide) (by decide) (by decide)

/-! ## Integer widths and scalar field values

The sized integer families of the crate (`u8`..`u128`, `i8`..`i128`)
share behaviour and differ only in their ranges. -/

/-- The five machine integer widths. -/
inductive Width where
  | w8
  | w16
  | w32
  | w64
  | w128
deriving DecidableEq

/-- The maximum of the unsigned type at a width. -/
def Width.uMax : Width → Nat
  | .w8 => 2 ^ 8 - 1
  | .w16 => 2 ^ 16 - 1
  | .w32 => 2 ^ 32 - 1
  | .w64 => 2 ^ 64 - 1
  | .w128 => 2 ^ 128 - 1

/-- The minimum of the signed type at a width. -/
def Width.iMin : Width → Int
  | .w8 => -(2 ^ 7)
  | .w16 => -(2 ^ 15)
  | .w32 => -(2 ^ 31)
  | .w64 => -(2 ^ 63)
  | .w128 => -(2 ^ 127)

/-- The maximum of the signed type at a width. -/
def Width.iMax : Width → Int
  | .w8 => 2 ^ 7 - 1
  | .w16 => 2 ^ 15 - 1
  | .w32 => 2 ^ 31 - 1
  | .w64 => 2 ^ 63 - 1
  | .w128 => 2 ^ 127 - 1

/-! ## The encode side

`src/ser/mod.rs`.  The serialization error enum (`Error`), the value shapes
a serde `Serialize` implementation can present, and the dispatch of the
top-level `Serializer`.

The field-level `StringSerializer` lives in `src/ser/string.rs`, which is
not among the available sources; `renderValue` is modelled from the spec:
integers and floats render in their standard minimal decimal form, booleans
as exactly `"true"`/`"false"`, strings verbatim, unit variants as the
variant name, a present optional as its unwrapped inner value; field-level
structural shapes (sequences, maps, nested structs, data-carrying
variants), which the flat format cannot represent, fail with
`NotSupported`.  An absent optional renders as the empty string — the only
rendering expressible through the field channel the source gives it
(`serialize_field` always writes one record per field), and the mirror
image of the decode contract where the empty string means "absent". -/

/-- The enum `ser::Error` (src/ser/mod.rs lines 55-69). -/
inductive SerError where
  | properties
  | custom (msg : String)
  | notAMap
  | notSupported
deriving DecidableEq

/-- The value of one struct field or map entry, as the field-level
serializer sees it.  A float carries its shortest round-trippable decimal
form as text (the spec's rendering contract), since the numeric value is
never otherwise consulted.  `fvStructural` stands for any field value of a
structural shape: the field serializer rejects those without looking
inside. -/
inductive FieldValue where
  | fvBool (b : Bool)
  | fvU (w : Width) (n : Nat)
  | fvI (w : Width) (v : Int)
  | fvF32 (text : String)
  | fvF64 (text : String)
  | fvStr (s : String)
  | fvChar (c : Char)
  | fvNone
  | fvSome (inner : FieldValue)
  | fvUnit
  | fvUnitStruct (name : String)
  | fvUnitVariant (name variant : String)
  | fvNewtypeStruct (name : String) (inner : FieldValue)
  | fvStructural
deriving DecidableEq

/-- The field-level `StringSerializer` (src/ser/string.rs, modelled from the
spec: see the section comment). -/
def renderValue : FieldValue → Except SerError String
  | .fvBool b => .ok (if b then "true" else "false")
  | .fvU _ n => .ok (renderNat n)
  | .fvI _ v => .ok (renderInt v)
  | .fvF32 text => .ok text
  | .fvF64 text => .ok text
  | .fvStr s => .ok s
  | .fvChar c => .ok (String.mk [c])
  | .fvNone => .ok ""
  | .fvSome inner => renderValue inner
  | .fvUnit => .error .notSupported
  | .fvUnitStruct _ => .error .notSupported
  | .fvUnitVariant _ variant => .ok variant
  | .fvNewtypeStruct _ inner => renderValue inner
  | .fvStructural => .error .notSupported

/-- A top-level value, by the `serde::Serializer` method its shape selects.
The sequence/tuple shapes carry no payload: `serialize_seq`,
`serialize_tuple`, `serialize_tuple_struct` and `serialize_tuple_variant`
reject before any element is visited. -/
inductive Value where
  | vBool (b : Bool)
  | vU (w : Width) (n : Nat)
  | vI (w : Width) (v : Int)
  | vF32 (text : String)
  | vF64 (text : String)
  | vStr (s : String)
  | vChar (c : Char)
  | vBytes (len : Nat)
  | vNone
  | vSome (inner : Value)
  | vUnit
  | vUnitStruct (name : String)
  | vUnitVariant (name variant : String)
  | vNewtypeStruct (name : String) (inner : Value)
  | vNewtypeVariant (name variant : String) (inner : Value)
  | vSeq (len : Nat)
  | vTuple (len : Nat)
  | vTupleStruct (name : String)
  | vTupleVariant (name variant : String)
  | vMap (entries : List (FieldValue × FieldValue))
  | vStruct (name : String) (fields : List (String × FieldValue))
  | vStructVariant (name variant : String)
      (fields : List (String × FieldValue))
deriving DecidableEq

/-- The method `SerializeStruct::serialize_field` looped over a struct's fields
(src/ser/mod.rs lines 101-122): each value is rendered by the field-level
serializer and written as one record under the field's key. -/
def renderFields :
    List (String × FieldValue) → Except SerError (List (String × String))
  | [] => .ok []
  | (name, v) :: rest => do
    let s ← renderValue v
    let tail ← renderFields rest
    .ok ((name, s) :: tail)

/-- The methods `SerializeMap::serialize_key` / `serialize_value` looped over a map's
entries (src/ser/mod.rs lines 147-181): keys and values both go through
the field-level serializer. -/
def renderEntries :
    List (FieldValue × FieldValue) → Except SerError (List (String × String))
  | [] => .ok []
  | (k, v) :: rest => do
    let ks ← renderValue k
    let vs ← renderValue v
    let tail ← renderEntries rest
    .ok ((ks, vs) :: tail)

/-- The top-level `Serializer` dispatch (src/ser/mod.rs lines 193-333):
scalars, byte strings, sequences and tuples fail with `NotAMap`;
`None`, units and unit variants succeed writing nothing; `Some` and
newtype wrappers delegate to their content; maps, structs and struct
variants emit one record per entry (the variant name of a struct variant
is ignored, no tag record is produced at this level). -/
def serializeValue : Value → Except SerError (List (String × String))
  | .vBool _ => .error .notAMap
  | .vU _ _ => .error .notAMap
  | .vI _ _ => .error .notAMap
  | .vF32 _ => .error .notAMap
  | .vF64 _ => .error .notAMap
  | .vStr _ => .error .notAMap
  | .vChar _ => .error .notAMap
  | .vBytes _ => .error .notAMap
  | .vNone => .ok []
  | .vSome inner => serializeValue inner
  | .vUnit => .ok []
  | .vUnitStruct _ => .ok []
  | .vUnitVariant _ _ => .ok []
  | .vNewtypeStruct _ inner => serializeValue inner
  | .vNewtypeVariant _ _ inner => serializeValue inner
  | .vSeq _ => .error .notAMap
  | .vTuple _ => .error .notAMap
  | .vTupleStruct _ => .error .notAMap
  | .vTupleVariant _ _ => .error .notAMap
  | .vMap entries => renderEntries entries
  | .vStruct _ fields => renderFields fields
  | .vStructVariant _ _ fields => renderFields fields

/-! ## The decode side

`src/de/field.rs` and `src/de/mod.rs`. -/

/-- The enum `de::Error` (src/de/mod.rs lines 70-89). -/
inductive DError where
  | custom (msg : String)
  | properties
  | parseIntError
  | parseFloatError
  | parseBoolError
  | notSupported
deriving DecidableEq

/-- The method `FieldDeserializer::deserialize_string` (src/de/field.rs lines
108-113): `visit_string(self.0)` — the raw value verbatim, no trimming, no
escape processing. -/
def fieldDeserializeString (s : String) : String := s

/-- The statically hinted primitive kinds of the scalar universe:
booleans, the sized integer families, the two float widths, strings. -/
inductive BKind where
  | kBool
  | kU (w : Width)
  | kI (w : Width)
  | kF32
  | kF64
  | kStr
deriving DecidableEq

/-- A field's hint: a base kind, or an optional of one. -/
inductive FKind where
  | base (k : BKind)
  | opt (k : BKind)
deriving DecidableEq

/-- The hinted decoding path of `FieldDeserializer` for base kinds: the
`make_fn!` methods (src/de/field.rs lines 115-129), each `self.0.parse()?`
into the target type's `FromStr`, and `deserialize_string`.

The `deserialize_f32` / `deserialize_f64` arms: `parse::<f32>()` and
`parse::<f64>()` succeed exactly on the float grammar, and the parsed value
is handed to `visit_f32` / `visit_f64` unchanged.  In this embedding a
float value is represented by its shortest round-trippable decimal text —
the form the Field Encoder emits — and on such texts the successful parse
returns the very value the text renders, so the arm keeps the text; a
non-canonical text stands for the float it denotes under the same
representation. -/
def hintedDecodeBase : BKind → String → Except DError FieldValue
  | .kBool, s =>
    match rustParseBool s with
    | some b => .ok (.fvBool b)
    | none => .error .parseBoolError
  | .kU w, s =>
    match rustParseUnsigned w.uMax s with
    | some n => .ok (.fvU w n)
    | none => .error .parseIntError
  | .kI w, s =>
    match rustParseSigned w.iMin w.iMax s with
    | some v => .ok (.fvI w v)
    | none => .error .parseIntError
  | .kF32, s =>
    if floatGrammar s then .ok (.fvF32 s) else .error .parseFloatError
  | .kF64, s =>
    if floatGrammar s then .ok (.fvF64 s) else .error .parseFloatError
  | .kStr, s => .ok (.fvStr s)

/-- The hinted decoding path including `deserialize_option`
(src/de/field.rs lines 131-140): the empty string is `visit_none`, any
other input is `visit_some` recursing into the inner kind. -/
def hintedDecode : FKind → String → Except DError FieldValue
  | .base k, s => hintedDecodeBase k s
  | .opt k, s =>
    if s = "" then .ok .fvNone
    else (hintedDecodeBase k s).map .fvSome

/-- The shape of one declared enum variant on the decode side. -/
inductive VariantKind where
  | unitK
  | newtypeK
  | tupleK
  | structK
deriving DecidableEq

/-- The variant named by the raw string, by exact case-sensitive equality
(the identifier seed of `EnumAccess::variant_seed`, src/de/field.rs lines
55-67, deserializing the raw value as the variant identifier). -/
def findVariant : List (String × VariantKind) → String → Option VariantKind
  | [], _ => none
  | (name, k) :: rest, s => if name = s then some k else findVariant rest s

/-- The method `deserialize_enum` on a field value (src/de/field.rs lines 22-67 and
153-163): the raw string selects the variant by exact name match; the
selected variant's access is `UnitDeserializer`, whose `unit_variant`
succeeds and whose `newtype_variant_seed` / `tuple_variant` /
`struct_variant` fail with `NotSupported`.  An unmatched string fails with
the generic unknown-variant error.  On success the result is the matched
variant name. -/
def decodeEnumVariant (variants : List (String × VariantKind)) (s : String) :
    Except DError String :=
  match findVariant variants s with
  | none => .error (.custom "unknown variant")
  | some .unitK => .ok s
  | some _ => .error .notSupported

/-! ## The structural walk over a document

`Deserializer` / `PropertiesMapAccess` (src/de/mod.rs lines 141-192) feed
(key, value) records in document order to the caller's struct visitor:
each known key's value is decoded under the field's static hint, unknown
keys are consumed by the always-succeeding inference cascade and dropped,
a repeated key overwrites the previous assignment (last write wins), a
missing non-optional field is an error, and a missing optional field
becomes an absent optional. -/

/-- The declared kind of the field named `key`, if any. -/
def lookupKind : List (String × FKind) → String → Option FKind
  | [], _ => none
  | (n, k) :: rest, key => if n = key then some k else lookupKind rest key

/-- The value currently assigned to `key`, if any. -/
def lookupAssigned : List (String × FieldValue) → String → Option FieldValue
  | [], _ => none
  | (n, v) :: rest, key =>
    if n = key then some v else lookupAssigned rest key

/-- Record an assignment, overwriting an existing one (last write wins). -/
def assignField :
    List (String × FieldValue) → String → FieldValue →
    List (String × FieldValue)
  | [], key, v => [(key, v)]
  | (n, w) :: rest, key, v =>
    if n = key then (key, v) :: rest else (n, w) :: assignField rest key v

/-- One pass over the document's records, decoding each known key's value
under its hint and accumulating assignments. -/
def processRecords (shape : List (String × FKind)) :
    List (String × String) → List (String × FieldValue) →
    Except DError (List (String × FieldValue))
  | [], acc => .ok acc
  | (key, s) :: rest, acc =>
    match lookupKind shape key with
    | some kind => do
      let v ← hintedDecode kind s
      processRecords shape rest (assignField acc key v)
    | none => processRecords shape rest acc

/-- Assemble the struct value from the assignments, field by declared
field: a missing optional field is absent, a missing base field is the
missing-field error. -/
def buildStruct (acc : List (String × FieldValue)) :
    List (String × FKind) → Except DError (List (String × FieldValue))
  | [] => .ok []
  | (name, kind) :: rest =>
    match lookupAssigned acc name with
    | some v => do
      let tail ← buildStruct acc rest
      .ok ((name, v) :: tail)
    | none =>
      match kind with
      | .opt _ => do
        let tail ← buildStruct acc rest
        .ok ((name, .fvNone) :: tail)
      | .base _ => .error (.custom "missing field")

/-- Decode a whole document into a struct of the given shape. -/
def decodeStruct (shape : List (String × FKind))
    (doc : List (String × String)) :
    Except DError (List (String × FieldValue)) := do
  let acc ← processRecords shape doc []
  buildStruct acc shape

/-! ## Well-typed struct values

The scalar universe of the round-trip claims: booleans, sized integers
within range, strings, and options of these. -/

/-- A base-kind value within its type's range.  A float value's text is a
rendering of a float, so it matches the float grammar — every shortest
round-trippable decimal form does. -/
def wtBase : BKind → FieldValue → Bool
  | .kBool, .fvBool _ => true
  | .kU w, .fvU w' n => decide (w' = w) && decide (n ≤ w.uMax)
  | .kI w, .fvI w' v =>
    decide (w' = w) && decide (w.iMin ≤ v) && decide (v ≤ w.iMax)
  | .kF32, .fvF32 text => floatGrammar text
  | .kF64, .fvF64 text => floatGrammar text
  | .kStr, .fvStr _ => true
  | _, _ => false

/-- A field value matching its declared hint. -/
def wtField : FKind → FieldValue → Bool
  | .base k, v => wtBase k v
  | .opt _, .fvNone => true
  | .opt k, .fvSome v => wtBase k v
  | .opt _, _ => false

/-- The fields carry the declared names in declaration order and each value
matches its hint. -/
def alignedFields :
    List (String × FKind) → List (String × FieldValue) → Bool
  | [], [] => true
  | (n, k) :: st, (n', v) :: fs =>
    decide (n' = n) && wtField k v && alignedFields st fs
  | _, _ => false

/-- No present optional string field holds the empty string (the one value
whose rendering collides with the absent-optional encoding). -/
def noEmptyOptionalString : List (String × FieldValue) → Bool
  | [] => true
  | (_, v) :: rest =>
    !decide (v = .fvSome (.fvStr "")) && noEmptyOptionalString rest

theorem renderNat_ne_empty (n : Nat) : renderNat n ≠ "" := by
  intro h
  have hd : (renderNat n).data = [] := by rw [h]
  rw [renderNat_data] at hd
  exact natChars_ne_nil (n + 1) n (by omega) hd

theorem renderInt_ne_empty (v : Int) : renderInt v ≠ "" := by
  by_cases hneg : v < 0
  · intro h
    have hd : (renderInt v).data = [] := by rw [h]
    rw [renderInt, if_pos hneg] at hd
    exact absurd hd (by simp)
  · rw [renderInt, if_neg hneg]
    exact renderNat_ne_empty v.toNat

/-- Rendering then hinted decoding of a well-typed base scalar recovers the
value; away from the string kind the rendering is never empty (and an empty
string renders to itself). -/
theorem hintedBase_roundtrip (k : BKind) (v : FieldValue)
    (hw : wtBase k v = true) :
    ∃ s, renderValue v = .ok s ∧ hintedDecodeBase k s = .ok v ∧
      (v = .fvStr "" ∨ s ≠ "") := by
  cases k <;> cases v <;> simp [wtBase] at hw
  case kBool.fvBool b =>
    cases b
    · exact ⟨"false", rfl, rfl, Or.inr (by decide)⟩
    · exact ⟨"true", rfl, rfl, Or.inr (by decide)⟩
  case kU.fvU w w' n =>
    obtain ⟨rfl, hle⟩ := hw
    refine ⟨renderNat n, rfl, ?_, Or.inr (renderNat_ne_empty n)⟩
    rw [hintedDecodeBase, rustParseUnsigned_renderNat w'.uMax n hle]
  case kI.fvI w w' x =>
    obtain ⟨⟨rfl, hlo⟩, hhi⟩ := hw
    refine ⟨renderInt x, rfl, ?_, Or.inr (renderInt_ne_empty x)⟩
    rw [hintedDecodeBase, rustParseSigned_renderInt w'.iMin w'.iMax x hlo hhi]
  case kF32.fvF32 t =>
    have hne : t ≠ "" := by
      intro h
      rw [h] at hw
      exact absurd hw (by decide)
    refine ⟨t, rfl, ?_, Or.inr hne⟩
    simp [hintedDecodeBase, hw]
  case kF64.fvF64 t =>
    have hne : t ≠ "" := by
      intro h
      rw [h] at hw
      exact absurd hw (by decide)
    refine ⟨t, rfl, ?_, Or.inr hne⟩
    simp [hintedDecodeBase, hw]
  case kStr.fvStr s =>
    by_cases hs : s = ""
    · exact ⟨s, rfl, rfl, Or.inl (by rw [hs])⟩
    · exact ⟨s, rfl, rfl, Or.inr hs⟩

/-- Rendering then hinted decoding of a well-typed field value recovers the
value, provided a present optional string is not the empty string. -/
theorem hinted_roundtrip (k : FKind) (v : FieldValue)
    (hw : wtField k v = true) (hne : v ≠ .fvSome (.fvStr "")) :
    ∃ s, renderValue v = .ok s ∧ hintedDecode k s = .ok v := by
  cases k with
  | base b =>
    obtain ⟨s, hr, hd, _⟩ := hintedBase_roundtrip b v hw
    exact ⟨s, hr, hd⟩
  | opt b =>
    cases v <;> simp only [wtField] at hw
    case fvNone => exact ⟨"", rfl, rfl⟩
    case fvSome inner =>
      obtain ⟨s, hr, hd, hone⟩ := hintedBase_roundtrip b inner hw
      have hsne : s ≠ "" := by
        rcases hone with h | h
        · exact absurd (by rw [h]) hne
        · exact h
      refine ⟨s, by simpa [renderValue] using hr, ?_⟩
      rw [hintedDecode, if_neg hsne, hd]
      rfl
    all_goals exact absurd hw (by simp)

theorem aligned_keys :
    ∀ (st : List (String × FKind)) (fs : List (String × FieldValue)),
      alignedFields st fs = true → fs.map Prod.fst = st.map Prod.fst := by
  intro st
  induction st with
  | nil =>
    intro fs h
    cases fs with
    | nil => rfl
    | cons p fs' => exact absurd h (by simp [alignedFields])
  | cons p st ih =>
    intro fs h
    obtain ⟨n, k⟩ := p
    cases fs with
    | nil => exact absurd h (by simp [alignedFields])
    | cons q fs' =>
      obtain ⟨n', v⟩ := q
      rw [alignedFields, Bool.and_eq_true, Bool.and_eq_true,
        decide_eq_true_iff] at h
      obtain ⟨⟨rfl, _⟩, ha⟩ := h
      simp only [List.map_cons]
      rw [ih fs' ha]

theorem lookupKind_of_mem (st : List (String × FKind)) (n : String)
    (k : FKind) (hnd : (st.map Prod.fst).Nodup) (hm : (n, k) ∈ st) :
    lookupKind st n = some k := by
  induction st with
  | nil => cases hm
  | cons p st ih =>
    obtain ⟨n0, k0⟩ := p
    rw [List.map_cons, List.nodup_cons] at hnd
    rw [lookupKind]
    by_cases he : n0 = n
    · subst he
      rcases List.mem_cons.mp hm with heq | hmem
      · obtain ⟨-, rfl⟩ := Prod.mk.inj heq
        rw [if_pos rfl]
      · exact absurd (List.mem_map_of_mem Prod.fst hmem) hnd.1
    · rw [if_neg he]
      rcases List.mem_cons.mp hm with heq | hmem
      · obtain ⟨h1, _⟩ := Prod.mk.inj heq
        exact absurd h1.symm he
      · exact ih hnd.2 hmem

theorem lookupAssigned_of_mem (fs : List (String × FieldValue)) (n : String)
    (v : FieldValue) (hnd : (fs.map Prod.fst).Nodup) (hm : (n, v) ∈ fs) :
    lookupAssigned fs n = some v := by
  induction fs with
  | nil => cases hm
  | cons p fs ih =>
    obtain ⟨n0, v0⟩ := p
    rw [List.map_cons, List.nodup_cons] at hnd
    rw [lookupAssigned]
    by_cases he : n0 = n
    · subst he
      rcases List.mem_cons.mp hm with heq | hmem
      · obtain ⟨-, rfl⟩ := Prod.mk.inj heq
        rw [if_pos rfl]
      · exact absurd (List.mem_map_of_mem Prod.fst hmem) hnd.1
    · rw [if_neg he]
      rcases List.mem_cons.mp hm with heq | hmem
      · obtain ⟨h1, _⟩ := Prod.mk.inj heq
        exact absurd h1.symm he
      · exact ih hnd.2 hmem

theorem assignField_fresh :
    ∀ (acc : List (String × FieldValue)) (n : String) (v : FieldValue),
      lookupAssigned acc n = none → assignField acc n v = acc ++ [(n, v)] := by
  intro acc
  induction acc with
  | nil => intro n v _; rfl
  | cons p acc ih =>
    intro n v h
    obtain ⟨m, w⟩ := p
    rw [lookupAssigned] at h
    by_cases he : m = n
    · rw [if_pos he] at h
      exact absurd h (by simp)
    · rw [if_neg he] at h
      simp only [assignField, if_neg he, ih n v h, List.cons_append]

theorem lookupAssigned_append_single :
    ∀ (acc : List (String × FieldValue)) (m : String) (w : FieldValue)
      (n : String), m ≠ n →
      lookupAssigned (acc ++ [(m, w)]) n = lookupAssigned acc n := by
  intro acc
  induction acc with
  | nil =>
    intro m w n h
    simp only [List.nil_append, lookupAssigned, if_neg h]
  | cons p acc ih =>
    intro m w n h
    obtain ⟨a, b⟩ := p
    simp only [List.cons_append, lookupAssigned, List.append_eq]
    by_cases he : a = n
    · rw [if_pos he, if_pos he]
    · rw [if_neg he, if_neg he, ih m w n h]

/-- The heart of the round trip: rendering an aligned, well-typed list of
fields succeeds, and replaying the rendered records through the document
walk extends the accumulator by exactly those fields. -/
theorem processRecords_renderFields (shape : List (String × FKind)) :
    ∀ (st : List (String × FKind)) (fs : List (String × FieldValue))
      (acc : List (String × FieldValue)),
      alignedFields st fs = true →
      noEmptyOptionalString fs = true →
      (st.map Prod.fst).Nodup →
      (∀ n k, (n, k) ∈ st → lookupKind shape n = some k) →
      (∀ p ∈ fs, lookupAssigned acc p.1 = none) →
      ∃ doc, renderFields fs = .ok doc ∧
        processRecords shape doc acc = .ok (acc ++ fs) := by
  intro st
  induction st with
  | nil =>
    intro fs acc ha _ _ _ _
    cases fs with
    | nil => exact ⟨[], rfl, by simp [processRecords]⟩
    | cons p fs' => exact absurd ha (by simp [alignedFields])
  | cons p st ih =>
    intro fs acc ha hne hnd hlk hfresh
    obtain ⟨n, k⟩ := p
    cases fs with
    | nil => exact absurd ha (by simp [alignedFields])
    | cons q fs' =>
      obtain ⟨n', v⟩ := q
      rw [alignedFields, Bool.and_eq_true, Bool.and_eq_true,
        decide_eq_true_iff] at ha
      obtain ⟨⟨rfl, hwt⟩, ha'⟩ := ha
      rw [noEmptyOptionalString, Bool.and_eq_true, Bool.not_eq_eq_eq_not,
        Bool.not_true, decide_eq_false_iff_not] at hne
      obtain ⟨hnev, hne'⟩ := hne
      rw [List.map_cons, List.nodup_cons] at hnd
      obtain ⟨s, hrv, hdec⟩ := hinted_roundtrip k v hwt hnev
      have hfreshq := hfresh (n', v) (List.mem_cons_self _ _)
      have hkeys' := aligned_keys st fs' ha'
      obtain ⟨doc', hrf', hpr'⟩ := ih fs' (acc ++ [(n', v)]) ha' hne' hnd.2
        (fun m k' hm => hlk m k' (List.mem_cons_of_mem _ hm))
        (fun q hq => by
          have hqk : q.1 ∈ st.map Prod.fst := by
            rw [← hkeys']
            exact List.mem_map_of_mem Prod.fst hq
          have hqn : n' ≠ q.1 := fun e => hnd.1 (e ▸ hqk)
          rw [lookupAssigned_append_single acc n' v q.1 hqn]
          exact hfresh q (List.mem_cons_of_mem _ hq))
      refine ⟨(n', s) :: doc', ?_, ?_⟩
      · rw [renderFields, hrv, hrf']
        rfl
      · have hlkn := hlk n' k (List.mem_cons_self _ _)
        rw [processRecords, hlkn]
        simp only [hdec]
        show processRecords shape doc' (assignField acc n' v) =
          Except.ok (acc ++ (n', v) :: fs')
        rw [assignField_fresh acc n' v hfreshq, hpr']
        simp [List.append_assoc]

/-- Reassembling a struct from assignments that hold exactly the aligned
values reproduces the field list. -/
theorem buildStruct_ok (acc : List (String × FieldValue)) :
    ∀ (st : List (String × FKind)) (fs : List (String × FieldValue)),
      alignedFields st fs = true →
      (∀ p ∈ fs, lookupAssigned acc p.1 = some p.2) →
      buildStruct acc st = .ok fs := by
  intro st
  induction st with
  | nil =>
    intro fs ha _
    cases fs with
    | nil => rfl
    | cons p fs' => exact absurd ha (by simp [alignedFields])
  | cons p st ih =>
    intro fs ha hmem
    obtain ⟨n, k⟩ := p
    cases fs with
    | nil => exact absurd ha (by simp [alignedFields])
    | cons q fs' =>
      obtain ⟨n', v⟩ := q
      rw [alignedFields, Bool.and_eq_true, Bool.and_eq_true,
        decide_eq_true_iff] at ha
      obtain ⟨⟨rfl, _⟩, ha'⟩ := ha
      have hv := hmem (n', v) (List.mem_cons_self _ _)
      simp only [buildStruct, hv,
        ih fs' ha' (fun q hq => hmem q (List.mem_cons_of_mem _ hq))]
      rfl

/-- Counterexample to C4 as stated: the claim's universe includes options of
strings, and the value `Some("")` breaks the round trip — a present
optional renders unwrapped, so it renders as the empty string, which the
option-hinted decoder reads back as an absent optional. -/
theorem struct_roundtrip_C4_cex :
    alignedFields [("opt", FKind.opt BKind.kStr)]
        [("opt", FieldValue.fvSome (FieldValue.fvStr ""))] = true ∧
      serializeValue (Value.vStruct "T"
          [("opt", FieldValue.fvSome (FieldValue.fvStr ""))]) =
        Except.ok [("opt", "")] ∧
      decodeStruct [("opt", FKind.opt BKind.kStr)] [("opt", "")] =
        Except.ok [("opt", FieldValue.fvNone)] ∧
      [("opt", FieldValue.fvNone)] ≠
        [("opt", FieldValue.fvSome (FieldValue.fvStr ""))] :=
  ⟨by decide, rfl, rfl, by decide⟩

/-- C4 as amended: for a struct shape over booleans, sized integers, sized
floats, strings and options of these, with distinct field names, and a
well-typed value in which no present optional string field holds the empty
string, encoding succeeds and decoding the encoded document reproduces the
value exactly.  A float value is carried as its shortest round-trippable
decimal rendering, on which parse-after-render is the identity — the
defining property of that form. -/
theorem struct_roundtrip_C4 (name : String) (shape : List (String × FKind))
    (fields : List (String × FieldValue))
    (ha : alignedFields shape fields = true)
    (hn : (shape.map Prod.fst).Nodup)
    (he : noEmptyOptionalString fields = true) :
    ∃ doc, serializeValue (.vStruct name fields) = .ok doc ∧
      decodeStruct shape doc = .ok fields := by
  obtain ⟨doc, hrf, hpr⟩ := processRecords_renderFields shape shape fields []
    ha he hn (fun n k hm => lookupKind_of_mem shape n k hn hm)
    (fun p _ => rfl)
  refine ⟨doc, hrf, ?_⟩
  rw [decodeStruct, hpr]
  have hnf : (fields.map Prod.fst).Nodup := by
    rw [aligned_keys shape fields ha]
    exact hn
  show buildStruct ([] ++ fields) shape = Except.ok fields
  rw [List.nil_append]
  exact buildStruct_ok fields shape fields ha
    (fun p hp => lookupAssigned_of_mem fields p.1 p.2 hnf
      (by rwa [Prod.mk.eta]))

/-- Witness for the amended C4 at a concrete three-field struct (a boolean,
an optional 8-bit unsigned integer, and a 32-bit float). -/
theorem struct_roundtrip_C4_witness :
    ∃ doc,
      serializeValue (.vStruct "S"
          [("a", FieldValue.fvBool true),
           ("b", FieldValue.fvSome (FieldValue.fvU .w8 7)),
           ("c", FieldValue.fvF32 "1.5")]) = .ok doc ∧
        decodeStruct
          [("a", FKind.base .kBool), ("b", FKind.opt (.kU .w8)),
           ("c", FKind.base .kF32)] doc =
          .ok [("a", FieldValue.fvBool true),
               ("b", FieldValue.fvSome (FieldValue.fvU .w8 7)),
               ("c", FieldValue.fvF32 "1.5")] :=
  struct_roundtrip_C4 "S"
    [("a", FKind.base .kBool), ("b", FKind.opt (.kU .w8)),
     ("c", FKind.base .kF32)]
    [("a", FieldValue.fvBool true),
     ("b", FieldValue.fvSome (FieldValue.fvU .w8 7)),
     ("c", FieldValue.fvF32 "1.5")]
    (by decide) (by decide) (by decide)

/-- C5: rendering any string through the Field Encoder and decoding the
rendered value with the string hint returns the original string unmodified
— no trimming, no escape processing in the core.  The statement is fully
universal, so it covers `"true"`, `"123"` and the empty string. -/
theorem string_hint_roundtrip_C5 (s : String) :
    (renderValue (FieldValue.fvStr s)).map fieldDeserializeString =
      Except.ok s :=
  rfl

/-- The top-level shapes the claim enumerates as rejected: every bare
scalar (booleans, both integer families at every width, both float widths,
strings, characters, byte strings), sequences, tuples, tuple structs and
tuple variants. -/
def topLevelRejected : Value → Bool
  | .vBool _ => true
  | .vU _ _ => true
  | .vI _ _ => true
  | .vF32 _ => true
  | .vF64 _ => true
  | .vStr _ => true
  | .vChar _ => true
  | .vBytes _ => true
  | .vSeq _ => true
  | .vTuple _ => true
  | .vTupleStruct _ => true
  | .vTupleVariant _ _ => true
  | _ => false

/-- C6: every bare scalar, sequence, tuple, tuple struct and tuple variant
presented at the top level fails with `NotAMap`, and no record is written
(the error result carries no document). -/
theorem toplevel_notamap_C6 (v : Value) (h : topLevelRejected v = true) :
    serializeValue v = .error .notAMap := by
  cases v <;> first | rfl | simp [topLevelRejected] at h

/-- Witness for C6 at the concrete bare string `"x"`. -/
theorem toplevel_notamap_C6_witness :
    topLevelRejected (Value.vStr "x") = true ∧
      serializeValue (Value.vStr "x") = .error .notAMap :=
  ⟨rfl, toplevel_notamap_C6 (Value.vStr "x") rfl⟩

/-- Counterexample to C7 as stated: encoding an externally tagged struct
variant does not fail with `NotSupported` — it succeeds, emitting the
fields and silently dropping the variant tag; a newtype variant delegates
to its content and succeeds likewise. -/
theorem enum_encode_C7_cex :
    serializeValue (Value.vStructVariant "Test" "Var1"
        [("key", FieldValue.fvU .w64 1000)]) = Except.ok [("key", "1000")] ∧
      serializeValue (Value.vStructVariant "Test" "Var1"
          [("key", FieldValue.fvU .w64 1000)]) ≠
        Except.error SerError.notSupported ∧
      serializeValue (Value.vNewtypeVariant "E" "V"
          (Value.vStruct "S" [("k", FieldValue.fvBool true)])) =
        Except.ok [("k", "true")] := by
  have h1 : serializeValue (Value.vStructVariant "Test" "Var1"
      [("key", FieldValue.fvU .w64 1000)]) = Except.ok [("key", "1000")] := rfl
  refine ⟨h1, ?_, rfl⟩
  rw [h1]
  intro h
  exact Except.noConfusion h

/-- C7 as amended: `serialize_struct_variant` encodes an externally tagged
struct variant exactly as the corresponding bare struct — one record per
field, the variant tag discarded, no error — and `serialize_newtype_variant`
delegates to its content; neither raises `NotSupported` at the top level
(on the encode side that error can only arise from a field-level value). -/
theorem enum_encode_C7 (name variant : String)
    (fields : List (String × FieldValue)) (inner : Value) :
    serializeValue (.vStructVariant name variant fields) =
        serializeValue (.vStruct name fields) ∧
      serializeValue (.vNewtypeVariant name variant inner) =
        serializeValue inner :=
  ⟨rfl, rfl⟩

/-- C8: decoding a field value as an enum succeeds exactly for a unit
variant whose name matches the raw string; a newtype, tuple or struct
variant selected by the match fails with `NotSupported`. -/
theorem enum_decode_C8 (variants : List (String × VariantKind)) (s : String)
    (k : VariantKind) (h : findVariant variants s = some k) :
    (k = .unitK → decodeEnumVariant variants s = .ok s) ∧
      (k ≠ .unitK → decodeEnumVariant variants s = .error .notSupported) := by
  constructor
  · intro hk
    subst hk
    simp only [decodeEnumVariant, h]
  · intro hk
    cases k with
    | unitK => exact absurd rfl hk
    | newtypeK => simp only [decodeEnumVariant, h]
    | tupleK => simp only [decodeEnumVariant, h]
    | structK => simp only [decodeEnumVariant, h]

/-- Witness for C8 on a two-variant enum: the unit variant `"On"` decodes,
the newtype variant `"Data"` is rejected. -/
theorem enum_decode_C8_witness :
    decodeEnumVariant [("On", VariantKind.unitK), ("Data", VariantKind.newtypeK)]
        "On" = .ok "On" ∧
      decodeEnumVariant [("On", VariantKind.unitK), ("Data", VariantKind.newtypeK)]
        "Data" = .error .notSupported :=
  ⟨(enum_decode_C8 [("On", .unitK), ("Data", .newtypeK)] "On" .unitK
      (by decide)).1 rfl,
   (enum_decode_C8 [("On", .unitK), ("Data", .newtypeK)] "Data" .newtypeK
      (by decide)).2 (by decide)⟩

/-- Counterexample to C9 as stated: an absent optional field is not
skipped — `serialize_field` writes one record for every field, so the
absent optional is emitted as a record with an empty value. -/
theorem optional_skip_C9_cex :
    serializeValue (Value.vStruct "S"
        [("opt", FieldValue.fvNone), ("other", FieldValue.fvU .w8 5)]) =
      Except.ok [("opt", ""), ("other", "5")] ∧
      List.lookup "opt" [("opt", ""), ("other", "5")] = some "" := by
  exact ⟨rfl, rfl⟩

/-- C9 as amended: an absent optional field is emitted as a record with the
field's key and the empty value (not skipped); a present optional is
rendered as its unwrapped inner value under the field's own key; and the
empty value decodes under an option hint to the absent optional, so the
round trip reconstructs the absent field as absent. -/
theorem optional_empty_record_C9 (name key : String)
    (fields : List (String × FieldValue)) (doc : List (String × String))
    (h : renderFields fields = .ok doc) :
    serializeValue (.vStruct name ((key, FieldValue.fvNone) :: fields)) =
        .ok ((key, "") :: doc) ∧
      (∀ b : BKind, hintedDecode (.opt b) "" = .ok FieldValue.fvNone) ∧
      (∀ v : FieldValue, renderValue (FieldValue.fvSome v) = renderValue v) := by
  refine ⟨?_, fun b => rfl, fun v => rfl⟩
  calc serializeValue (.vStruct name ((key, FieldValue.fvNone) :: fields))
      = (renderFields fields).bind
          (fun tail => Except.ok ((key, "") :: tail)) := rfl
    _ = .ok ((key, "") :: doc) := by rw [h]; rfl

/-- Witness for the amended C9 at a concrete struct with an absent optional
and one other field. -/
theorem optional_empty_record_C9_witness :
    serializeValue (.vStruct "S"
        [("opt", FieldValue.fvNone), ("other", FieldValue.fvU .w8 5)]) =
        .ok [("opt", ""), ("other", "5")] ∧
      hintedDecode (.opt .kStr) "" = .ok FieldValue.fvNone := by
  have h := optional_empty_record_C9 "S" "opt" [("other", FieldValue.fvU .w8 5)]
    [("other", "5")] rfl
  exact ⟨h.1, h.2.1 .kStr⟩

/-- C10: a top-level `None`, unit, unit struct or unit enum variant is
accepted (not `NotAMap`) and serializes to the empty document: no records
at all. -/
theorem unit_shapes_empty_C10 (name variant : String) :
    serializeValue Value.vNone = .ok [] ∧
      serializeValue Value.vUnit = .ok [] ∧
      serializeValue (Value.vUnitStruct name) = .ok [] ∧
      serializeValue (Value.vUnitVariant name variant) = .ok [] :=
  ⟨rfl, rfl, rfl, rfl⟩
